import Mathlib

/-!
Verification of the argument-graph extraction core of the `ai_paper_agent`
repository.  The Python sources under `src/graph_approach/` are shallowly
embedded: class `ArgumentGraph` and its `add_node` / `add_edge` / `validate`
methods (`components.py`), the validation and id-generation helpers
(`utils.py`), the chunk-planning loop and the per-chunk component and
relation processing loops (`argument_extractor.py`), and `Config.validate`
(`config.py`).  Python dictionaries coming from parsed JSON are modelled as
association lists over a small value universe `PyValue`; Python's stable
`sorted` is modelled by `List.insertionSort`, which is stable.
-/

/-- Value universe for the JSON-derived Python dictionaries handled by the
validation helpers: the claims under study only involve string and integer
values. -/
inductive PyValue where
  | str (s : String)
  | int (n : Int)
deriving DecidableEq

/-- A Python dict, modelled as an association list (first binding wins, as
dict keys are unique in the source data). -/
abbrev PyDict := List (String × PyValue)

/-- Dictionary lookup, modelling Python's `d.get(key)` / `key in d`. -/
def dictGet (d : PyDict) (key : String) : Option PyValue :=
  (d.find? (fun kv => kv.fst == key)).map (fun kv => kv.snd)

/-- Embeds the `ArgumentComponent` dataclass of `components.py` (fields
`id`, `type`, `text`, `page`). -/
structure ArgumentComponent where
  id : String
  type : String
  text : String
  page : Int
deriving DecidableEq

/-- Embeds the `ArgumentRelation` dataclass of `components.py` (fields
`source`, `target`, `relation`, `page`). -/
structure ArgumentRelation where
  source : String
  target : String
  relation : String
  page : Int
deriving DecidableEq

/-- Embeds the `ArgumentGraph` container of `components.py`: an ordered
node list and an ordered edge list. -/
structure ArgumentGraph where
  nodes : List ArgumentComponent
  edges : List ArgumentRelation
deriving DecidableEq

/-- Embeds `ArgumentGraph.add_node`: append the component unless a node
with the same id is already present. -/
def ArgumentGraph.add_node (g : ArgumentGraph) (component : ArgumentComponent) :
    ArgumentGraph :=
  if g.nodes.any (fun node => node.id == component.id) then g
  else { g with nodes := g.nodes ++ [component] }

/-- Embeds `ArgumentGraph.add_edge`: append the relation only when both
endpoints name existing nodes and the exact (source, target, relation)
triple is not already present.  (The source performs no self-loop check.) -/
def ArgumentGraph.add_edge (g : ArgumentGraph) (relation : ArgumentRelation) :
    ArgumentGraph :=
  let source_exists := g.nodes.any (fun node => node.id == relation.source)
  let target_exists := g.nodes.any (fun node => node.id == relation.target)
  if source_exists && target_exists then
    if g.edges.any (fun edge => edge.source == relation.source &&
        edge.target == relation.target &&
        edge.relation == relation.relation) then g
    else { g with edges := g.edges ++ [relation] }
  else g

/-- Helper for `ArgumentGraph.validate`: the duplicate-node-id scan of the
source (`seen_ids` loop). -/
def dupIdErrors : List ArgumentComponent → List String → List String
  | [], _ => []
  | node :: rest, seen =>
    (if seen.contains node.id then ["Duplicate node ID: " ++ node.id] else []) ++
      dupIdErrors rest (node.id :: seen)

/-- Embeds `ArgumentGraph.validate`: reports orphaned edge endpoints,
duplicate node ids and self-loops, in the source's order. -/
def ArgumentGraph.validate (g : ArgumentGraph) : List String :=
  let node_ids := g.nodes.map (fun node => node.id)
  let orphanErrors := g.edges.flatMap (fun edge =>
    (if node_ids.contains edge.source then []
     else ["Edge source \x27" ++ edge.source ++ "\x27 does not exist"]) ++
    (if node_ids.contains edge.target then []
     else ["Edge target \x27" ++ edge.target ++ "\x27 does not exist"]))
  let duplicateErrors := dupIdErrors g.nodes []
  let selfLoopErrors := g.edges.flatMap (fun edge =>
    if edge.source == edge.target then
      ["Self-loop detected: " ++ edge.source ++ " -> " ++ edge.target]
    else [])
  orphanErrors ++ duplicateErrors ++ selfLoopErrors

/-- C1: the claim says `add_edge` rejects self-loops whose endpoint names an
existing node.  The source has no such check: with node `A` present and no
prior edges, the self-loop `(A, A, supported_by)` is appended, and the
resulting graph is then flagged by the graph's own `validate` audit as
containing a self-loop error — the insertion guard contradicts the class's
own validation invariant. -/
theorem add_edge_accepts_self_loop_on_existing_node :
    (((ArgumentGraph.mk [] []).add_node
        (ArgumentComponent.mk "A" "Claim" "a claim" 1)).add_edge
        (ArgumentRelation.mk "A" "A" "supported_by" 1)).edges =
      [ArgumentRelation.mk "A" "A" "supported_by" 1] ∧
    (((ArgumentGraph.mk [] []).add_node
        (ArgumentComponent.mk "A" "Claim" "a claim" 1)).add_edge
        (ArgumentRelation.mk "A" "A" "supported_by" 1)).validate =
      ["Self-loop detected: A -> A"] := by
  constructor <;> rfl

/-- C2: `add_edge` is a no-op (and raises nothing) when the exact
(source, target, relation) triple is already present or when either
endpoint id names no existing node; it never touches the node list; and
adding the same relation twice yields the same graph as adding it once. -/
theorem add_edge_noop_and_idempotent :
    ∀ (g : ArgumentGraph) (r : ArgumentRelation),
      ((∃ e ∈ g.edges, e.source = r.source ∧ e.target = r.target ∧
          e.relation = r.relation) → g.add_edge r = g) ∧
      ((¬ ∃ n ∈ g.nodes, n.id = r.source) → g.add_edge r = g) ∧
      ((¬ ∃ n ∈ g.nodes, n.id = r.target) → g.add_edge r = g) ∧
      (g.add_edge r).nodes = g.nodes ∧
      (g.add_edge r).add_edge r = g.add_edge r := by
  intro g r
  refine ⟨?_, ?_, ?_, ?_, ?_⟩
  · intro hdup
    simp only [ArgumentGraph.add_edge]
    have : g.edges.any (fun edge => edge.source == r.source &&
        edge.target == r.target && edge.relation == r.relation) = true := by
      rcases hdup with ⟨e, he, h1, h2, h3⟩
      simp only [List.any_eq_true]
      exact ⟨e, he, by simp [h1, h2, h3]⟩
    simp [this]
  · intro hsrc
    simp only [ArgumentGraph.add_edge]
    have : g.nodes.any (fun node => node.id == r.source) = false := by
      simp only [List.any_eq_false]
      intro n hn
      simp only [beq_iff_eq]
      exact fun h => hsrc ⟨n, hn, h⟩
    simp [this]
  · intro htgt
    simp only [ArgumentGraph.add_edge]
    have : g.nodes.any (fun node => node.id == r.target) = false := by
      simp only [List.any_eq_false]
      intro n hn
      simp only [beq_iff_eq]
      exact fun h => htgt ⟨n, hn, h⟩
    simp [this]
  · simp only [ArgumentGraph.add_edge]
    split <;> [skip; rfl]
    split <;> rfl
  · by_cases hs : g.nodes.any (fun node => node.id == r.source) = true
    · by_cases ht : g.nodes.any (fun node => node.id == r.target) = true
      · by_cases hd : g.edges.any (fun edge => edge.source == r.source &&
            edge.target == r.target && edge.relation == r.relation) = true
        · have hg : g.add_edge r = g := by
            simp [ArgumentGraph.add_edge, hs, ht, hd]
          rw [hg, hg]
        · have hg : g.add_edge r = { g with edges := g.edges ++ [r] } := by
            simp [ArgumentGraph.add_edge, hs, ht, hd]
          rw [hg]
          simp only [ArgumentGraph.add_edge]
          have hs2 : ({ g with edges := g.edges ++ [r] } :
              ArgumentGraph).nodes.any (fun node => node.id == r.source) = true := hs
          have hd2 : ({ g with edges := g.edges ++ [r] } :
              ArgumentGraph).edges.any (fun edge => edge.source == r.source &&
              edge.target == r.target && edge.relation == r.relation) = true := by
            simp only [List.any_eq_true]
            exact ⟨r, by simp, by simp⟩
          simp [hs2, ht, hd2]
      · have hg : g.add_edge r = g := by
          simp [ArgumentGraph.add_edge, Bool.eq_false_iff.mpr ht]
        rw [hg, hg]
    · have hg : g.add_edge r = g := by
        simp [ArgumentGraph.add_edge, Bool.eq_false_iff.mpr hs]
      rw [hg, hg]

/-- Witness for C2: concrete applications of `add_edge_noop_and_idempotent`
on a two-node graph already containing the inserted triple, and on a graph
lacking the source endpoint. -/
theorem add_edge_noop_and_idempotent_witness :
    ((ArgumentGraph.mk
        [ArgumentComponent.mk "P1-C1" "Claim" "c" 1,
         ArgumentComponent.mk "P2-E1" "Evidence" "e" 2]
        [ArgumentRelation.mk "P1-C1" "P2-E1" "supported_by" 2]).add_edge
        (ArgumentRelation.mk "P1-C1" "P2-E1" "supported_by" 2) =
      ArgumentGraph.mk
        [ArgumentComponent.mk "P1-C1" "Claim" "c" 1,
         ArgumentComponent.mk "P2-E1" "Evidence" "e" 2]
        [ArgumentRelation.mk "P1-C1" "P2-E1" "supported_by" 2]) ∧
    ((ArgumentGraph.mk [ArgumentComponent.mk "P1-C1" "Claim" "c" 1] []).add_edge
        (ArgumentRelation.mk "P9-X9" "P1-C1" "leads_to" 1) =
      ArgumentGraph.mk [ArgumentComponent.mk "P1-C1" "Claim" "c" 1] []) := by
  constructor
  · exact (add_edge_noop_and_idempotent _ _).1
      ⟨ArgumentRelation.mk "P1-C1" "P2-E1" "supported_by" 2, by simp, by simp⟩
  · exact (add_edge_noop_and_idempotent _ _).2.1 (by decide)

/-- C3: `add_node` with a component whose id already appears among the
graph's nodes leaves the graph unchanged (no duplicate appended, no
error). -/
theorem add_node_idempotent_on_existing_id :
    ∀ (g : ArgumentGraph) (c : ArgumentComponent),
      (∃ n ∈ g.nodes, n.id = c.id) → g.add_node c = g := by
  intro g c hex
  simp only [ArgumentGraph.add_node]
  have : g.nodes.any (fun node => node.id == c.id) = true := by
    simp only [List.any_eq_true]
    rcases hex with ⟨n, hn, h⟩
    exact ⟨n, hn, by simp [h]⟩
  simp [this]

/-- Witness for C3: adding a component whose id `P1-C1` is already in the
graph is a no-op. -/
theorem add_node_idempotent_on_existing_id_witness :
    (ArgumentGraph.mk [ArgumentComponent.mk "P1-C1" "Claim" "c" 1] []).add_node
        (ArgumentComponent.mk "P1-C1" "Evidence" "other text" 3) =
      ArgumentGraph.mk [ArgumentComponent.mk "P1-C1" "Claim" "c" 1] [] :=
  add_node_idempotent_on_existing_id _ _
    ⟨ArgumentComponent.mk "P1-C1" "Claim" "c" 1, by simp, rfl⟩

/-- C9: frame conditions — `add_node` never modifies the edge list,
`add_edge` never modifies the node list, and each operation either appends
exactly one element to its own list or leaves the graph unchanged; nothing
is removed or reordered. -/
theorem graph_mutations_frame :
    ∀ (g : ArgumentGraph) (c : ArgumentComponent) (r : ArgumentRelation),
      (g.add_node c).edges = g.edges ∧
      ((g.add_node c).nodes = g.nodes ∨ (g.add_node c).nodes = g.nodes ++ [c]) ∧
      (g.add_edge r).nodes = g.nodes ∧
      ((g.add_edge r).edges = g.edges ∨ (g.add_edge r).edges = g.edges ++ [r]) := by
  intro g c r
  refine ⟨?_, ?_, ?_, ?_⟩
  · simp only [ArgumentGraph.add_node]
    split <;> rfl
  · simp only [ArgumentGraph.add_node]
    split
    · exact Or.inl rfl
    · exact Or.inr rfl
  · simp only [ArgumentGraph.add_edge]
    split <;> [skip; rfl]
    split <;> rfl
  · simp only [ArgumentGraph.add_edge]
    split
    · split
      · exact Or.inl rfl
      · exact Or.inr rfl
    · exact Or.inl rfl

/-- Embeds the chunk-planning loop of `extract_argument_graph`
(`argument_extractor.py`): `for i in range(0, len(pages), chunk_size):
chunk_pages = pages[i:i+chunk_size]`.  For `k ≥ 1`,
`pages[i:i+k] = p :: rest.take (k-1)` and the next iteration continues on
`rest.drop (k-1)`; the fuel argument (instantiated with the page count in
`chunkPlan`) bounds the iteration count, exactly enough since every
iteration consumes at least one page.  Python's `range` raises on step 0,
so the claims only concern `k > 0`. -/
def chunkPlanGo {α : Type} (k : Nat) : Nat → List α → List (List α)
  | 0, _ => []
  | _, [] => []
  | fuel + 1, p :: rest =>
    (p :: rest.take (k - 1)) :: chunkPlanGo k fuel (rest.drop (k - 1))

/-- The chunk plan of the driver loop: ordered page groups of size `k`. -/
def chunkPlan {α : Type} (k : Nat) (pages : List α) : List (List α) :=
  chunkPlanGo k pages.length pages

theorem chunkPlanGo_flatten {α : Type} (k : Nat) :
    ∀ (fuel : Nat) (xs : List α), xs.length ≤ fuel →
      (chunkPlanGo k fuel xs).flatten = xs := by
  intro fuel
  induction fuel with
  | zero =>
    intro xs hxs
    have : xs = [] := List.eq_nil_of_length_eq_zero (Nat.le_zero.mp hxs)
    subst this
    rfl
  | succ n ih =>
    intro xs hxs
    cases xs with
    | nil => rfl
    | cons p rest =>
      simp only [chunkPlanGo, List.flatten]
      have hlen : (rest.drop (k - 1)).length ≤ n := by
        have hrest : rest.length ≤ n := by simpa using hxs
        simp only [List.length_drop]
        omega
      rw [ih _ hlen]
      simp [List.take_append_drop]

theorem chunkPlanGo_length {α : Type} (k : Nat) (hk : 0 < k) :
    ∀ (fuel : Nat) (xs : List α), xs.length ≤ fuel →
      (chunkPlanGo k fuel xs).length = (xs.length + k - 1) / k := by
  intro fuel
  induction fuel with
  | zero =>
    intro xs hxs
    have : xs = [] := List.eq_nil_of_length_eq_zero (Nat.le_zero.mp hxs)
    subst this
    simp [chunkPlanGo, Nat.div_eq_of_lt (by omega : k - 1 < k)]
  | succ n ih =>
    intro xs hxs
    cases xs with
    | nil => simp [chunkPlanGo, Nat.div_eq_of_lt (by omega : k - 1 < k)]
    | cons p rest =>
      simp only [chunkPlanGo, List.length_cons]
      have hrest : rest.length ≤ n := by simpa using hxs
      have hlen : (rest.drop (k - 1)).length ≤ n := by
        simp only [List.length_drop]
        omega
      rw [ih _ hlen]
      simp only [List.length_drop]
      rcases le_or_lt (k - 1) rest.length with hge | hlt
      · have h1 : rest.length - (k - 1) + k - 1 = rest.length := by omega
        rw [h1]
        have h2 : rest.length + 1 + k - 1 = rest.length + k := by omega
        rw [h2, Nat.add_div_right _ hk]
      · have h1 : rest.length - (k - 1) = 0 := by omega
        rw [h1]
        have h2 : (0 + k - 1) / k = 0 := Nat.div_eq_of_lt (by omega)
        rw [h2]
        have h3 : rest.length + 1 + k - 1 = rest.length + k := by omega
        rw [h3]
        have h4 : (rest.length + k) / k = 1 := by
          rw [Nat.add_div_right _ hk, Nat.div_eq_of_lt (by omega)]
        omega

theorem chunkPlanGo_sizes {α : Type} (k : Nat) (hk : 0 < k) :
    ∀ (fuel : Nat) (xs : List α) (c : List α), c ∈ chunkPlanGo k fuel xs →
      c ≠ [] ∧ c.length ≤ k := by
  intro fuel
  induction fuel with
  | zero => intro xs c hc; simp [chunkPlanGo] at hc
  | succ n ih =>
    intro xs c hc
    cases xs with
    | nil => simp [chunkPlanGo] at hc
    | cons p rest =>
      simp only [chunkPlanGo, List.mem_cons] at hc
      rcases hc with rfl | hc
      · refine ⟨by simp, ?_⟩
        simp only [List.length_cons, List.length_take]
        omega
      · exact ih _ _ hc

/-- C4: for every page sequence of length `N` and chunk size `k > 0`, the
chunk-planning loop produces `⌈N/k⌉ = (N + k - 1) / k` ordered chunks
(so `N = 0` gives zero chunks and `0 < N ≤ k` gives one), each chunk is
non-empty with at most `k` pages, and concatenating the chunks in order
reproduces the original page sequence with every page exactly once. -/
theorem chunk_planner_correct {α : Type} (pages : List α) (k : Nat)
    (hk : 0 < k) :
    (chunkPlan k pages).length = (pages.length + k - 1) / k ∧
    (chunkPlan k pages).flatten = pages ∧
    ∀ c ∈ chunkPlan k pages, c ≠ [] ∧ c.length ≤ k := by
  refine ⟨chunkPlanGo_length k hk _ _ le_rfl,
    chunkPlanGo_flatten k _ _ le_rfl,
    fun c hc => chunkPlanGo_sizes k hk _ _ c hc⟩

/-- Witness for C4: five pages with chunk size two give three chunks whose
concatenation is the original sequence. -/
theorem chunk_planner_correct_witness :
    0 < 2 ∧
    ((chunkPlan 2 [10, 20, 30, 40, 50]).length = (5 + 2 - 1) / 2 ∧
     (chunkPlan 2 [10, 20, 30, 40, 50]).flatten = [10, 20, 30, 40, 50] ∧
     ∀ c ∈ chunkPlan 2 [10, 20, 30, 40, 50], c ≠ [] ∧ c.length ≤ 2) :=
  ⟨by decide, chunk_planner_correct [10, 20, 30, 40, 50] 2 (by decide)⟩

/-- Character-list matching at the head, auxiliary to modelling Python's
substring test. -/
def charListStartsWith : List Char → List Char → Bool
  | _, [] => true
  | [], _ :: _ => false
  | h :: t, nh :: nt => h == nh && charListStartsWith t nt

/-- Scan of the haystack for an occurrence of the needle. -/
def charListHasSub (needle : List Char) : List Char → Bool
  | [] => charListStartsWith [] needle
  | h :: t => charListStartsWith (h :: t) needle || charListHasSub needle t

/-- Python's substring containment `needle in hay` on strings. -/
def pyIn (needle hay : String) : Bool :=
  charListHasSub needle.data hay.data

/-- The sort order of `merge_overlapping_components`
(`sorted(components, key=lambda x: len(x[...]), reverse=True)`): longer
text first.  `List.insertionSort` with this relation is a stable sort and
therefore agrees with Python's stable `sorted`. -/
def byTextLengthDesc (a b : ArgumentComponent) : Prop :=
  b.text.length ≤ a.text.length

instance : DecidableRel byTextLengthDesc :=
  fun a b => Nat.decLe b.text.length a.text.length

instance : IsTotal ArgumentComponent byTextLengthDesc :=
  ⟨fun a b => le_total b.text.length a.text.length⟩

instance : IsTrans ArgumentComponent byTextLengthDesc :=
  ⟨fun _ _ _ h1 h2 => le_trans h2 h1⟩

/-- The accept loop of `merge_overlapping_components`: a candidate is kept
only if its text neither is contained in nor contains any already-used
span (`if text in used_text or used_text in text`); accepted texts are
added to the used set. -/
def mergeOverlapGo : List ArgumentComponent → List String → List ArgumentComponent
  | [], _ => []
  | c :: rest, used =>
    if used.any (fun u => pyIn c.text u || pyIn u c.text) then
      mergeOverlapGo rest used
    else c :: mergeOverlapGo rest (used ++ [c.text])

/-- Embeds `merge_overlapping_components` of `utils.py`: sort candidates
by text length descending (stably), then keep only candidates without a
substring overlap with any earlier-accepted candidate. -/
def merge_overlapping_components (components : List ArgumentComponent) :
    List ArgumentComponent :=
  mergeOverlapGo (List.insertionSort byTextLengthDesc components) []

theorem mergeOverlapGo_sublist :
    ∀ (xs : List ArgumentComponent) (used : List String),
      (mergeOverlapGo xs used).Sublist xs := by
  intro xs
  induction xs with
  | nil => intro used; simp [mergeOverlapGo]
  | cons c rest ih =>
    intro used
    simp only [mergeOverlapGo]
    split
    · exact (ih used).trans (List.sublist_cons_self c rest)
    · exact (ih (used ++ [c.text])).cons₂ c

theorem mergeOverlapGo_used :
    ∀ (xs : List ArgumentComponent) (used : List String)
      (c : ArgumentComponent), c ∈ mergeOverlapGo xs used →
      ∀ u ∈ used, pyIn c.text u = false ∧ pyIn u c.text = false := by
  intro xs
  induction xs with
  | nil => intro used c hc; simp [mergeOverlapGo] at hc
  | cons d rest ih =>
    intro used c hc u hu
    simp only [mergeOverlapGo] at hc
    split at hc
    · exact ih used c hc u hu
    · rename_i hcond
      rcases List.mem_cons.mp hc with rfl | hc2
      · have hall := List.any_eq_false.mp (Bool.eq_false_iff.mpr hcond)
        have := hall u hu
        simp only [Bool.or_eq_true, not_or, Bool.not_eq_true] at this
        exact this
      · exact ih (used ++ [d.text]) c hc2 u (List.mem_append_left _ hu)

theorem mergeOverlapGo_pairwise :
    ∀ (xs : List ArgumentComponent) (used : List String),
      List.Pairwise
        (fun a b => pyIn b.text a.text = false ∧ pyIn a.text b.text = false)
        (mergeOverlapGo xs used) := by
  intro xs
  induction xs with
  | nil => intro used; simp [mergeOverlapGo]
  | cons d rest ih =>
    intro used
    simp only [mergeOverlapGo]
    split
    · exact ih used
    · refine List.pairwise_cons.mpr ⟨?_, ih (used ++ [d.text])⟩
      intro b hb
      exact mergeOverlapGo_used rest (used ++ [d.text]) b hb d.text
        (List.mem_append_right _ (List.mem_singleton.mpr rfl))

/-- C7: `merge_overlapping_components` processes candidates in stable
text-length-descending order and accepts a candidate only when its text
neither is a substring of nor contains the text of any already-accepted
candidate: the result is pairwise substring-overlap free, listed in
non-increasing text length; on the concrete input where the second text is
a substring of the first, only the first is retained. -/
theorem merge_overlapping_components_correct :
    (merge_overlapping_components
      [ArgumentComponent.mk "P1-C1" "Claim" "A very long claim about X and Y" 1,
       ArgumentComponent.mk "P1-C2" "Claim" "X and Y" 1] =
      [ArgumentComponent.mk "P1-C1" "Claim" "A very long claim about X and Y" 1]) ∧
    ∀ comps : List ArgumentComponent,
      List.Pairwise
        (fun a b => (pyIn b.text a.text = false ∧ pyIn a.text b.text = false) ∧
          byTextLengthDesc a b)
        (merge_overlapping_components comps) := by
  constructor
  · decide
  · intro comps
    refine List.Pairwise.and (mergeOverlapGo_pairwise _ _) ?_
    exact List.Pairwise.sublist (mergeOverlapGo_sublist _ _)
      (List.sorted_insertionSort byTextLengthDesc comps)

/-- The 8 allowed component type literals of `validate_component_data`
(`utils.py`). -/
def valid_types : List String :=
  ["Claim", "Evidence", "Conclusion", "Counterclaim", "Background",
   "Method", "Result", "Limitation"]

/-- Rendering of a `PyValue` into an error message (the Python f-string
interpolates the offending value). -/
def PyValue.render : PyValue → String
  | PyValue.str s => s
  | PyValue.int n => toString n

/-- Embeds `validate_component_data` of `utils.py`: required fields `text`
and `type`; `text` must be a string (emptiness is NOT checked by the
source); `type` must exactly match one of the 8 literals (error messages
otherwise); `page`, when present, must be a positive integer.  The Python
invalid-type message also interpolates the full literal list, abbreviated
here to a fixed suffix. -/
def validate_component_data (component_data : PyDict) : List String :=
  ((["text", "type"].filter (fun f => (dictGet component_data f).isNone)).map
    (fun f => "Missing required field: " ++ f)) ++
  (match dictGet component_data "text" with
   | some (PyValue.str _) => []
   | some _ => ["\x27text\x27 must be a string"]
   | none => []) ++
  (match dictGet component_data "type" with
   | some (PyValue.str s) =>
     if valid_types.contains s then []
     else ["Invalid type: " ++ s ++ ". Must be one of the valid types"]
   | some v => ["Invalid type: " ++ v.render ++ ". Must be one of the valid types"]
   | none => []) ++
  (match dictGet component_data "page" with
   | some (PyValue.int p) =>
     if p ≤ 0 then ["\x27page\x27 must be a positive integer"] else []
   | some _ => ["\x27page\x27 must be a positive integer"]
   | none => [])

/-- Embeds `generate_component_id` of `utils.py`:
`type_prefix = component_type[0].upper()` then
`f"P{page_number}-{type_prefix}{index+1}"`.  (Python raises on an empty
type string; the head default is unreachable for validated data.) -/
def generate_component_id (component_type : String) (page_number : Int)
    (index : Nat) : String :=
  let typeInitial := (component_type.data.headD ' ').toUpper
  "P" ++ toString page_number ++ "-" ++ String.mk [typeInitial] ++
    toString (index + 1)

/-- A page record from the ingestion pipeline: `page_number` and `text`
(tables are ignored by the embedded fragment). -/
structure PageData where
  page_number : Int
  text : String
deriving DecidableEq

/-- Embeds `_infer_page_number` of `argument_extractor.py`: the first page
of the chunk whose text contains the component text verbatim, else the
chunk's first page.  (Python indexes `chunk_pages[0]`, raising on an empty
chunk, which the driver never produces; modelled with a default.) -/
def infer_page_number (text : String) (chunk_pages : List PageData) : Int :=
  match chunk_pages.find? (fun page => pyIn text page.text) with
  | some page => page.page_number
  | none => (chunk_pages.headD (PageData.mk 1 "")).page_number

/-- One iteration of the candidate loop of
`_extract_components_from_chunk`: skip the candidate when validation
reports errors, otherwise resolve the page
(`comp_data.get("page", _infer_page_number(...))`), generate the id from
the enumerate index `i`, and build the component.  The fallthrough match
arms are unreachable for validated candidates (validation guarantees
`text` is a string, `type` a valid string, and `page`, when present, an
integer). -/
def build_component (comp_data : PyDict) (chunk_pages : List PageData)
    (i : Nat) : Option ArgumentComponent :=
  if validate_component_data comp_data = [] then
    match dictGet comp_data "text", dictGet comp_data "type" with
    | some (PyValue.str text), some (PyValue.str ty) =>
      let page_number : Int :=
        match dictGet comp_data "page" with
        | some (PyValue.int p) => p
        | _ => infer_page_number text chunk_pages
      some (ArgumentComponent.mk (generate_component_id ty page_number i)
        ty text page_number)
    | _, _ => none
  else none

/-- The enumerated candidate loop
(`for i, comp_data in enumerate(components_data)`): invalid candidates are
skipped individually but still advance the index. -/
def extractComponentsGo (chunk_pages : List PageData) :
    Nat → List PyDict → List ArgumentComponent
  | _, [] => []
  | i, comp_data :: rest =>
    (build_component comp_data chunk_pages i).toList ++
      extractComponentsGo chunk_pages (i + 1) rest

/-- Embeds the response-processing part of `_extract_components_from_chunk`
(`argument_extractor.py`): validate and build each candidate with ids from
the enumerate index, then apply the merge-overlap pass.  (The source
round-trips the components through dicts for the merge; ids are preserved
there by `comp_dict.get("id", ...)` since `id` is always present.) -/
def extract_components_from_chunk (componentsData : List PyDict)
    (chunk_pages : List PageData) : List ArgumentComponent :=
  merge_overlapping_components (extractComponentsGo chunk_pages 0 componentsData)

/-- C6-counterexample: the source never checks that `text` is non-empty —
a candidate with an empty-string `text` and a valid `type` passes
validation with an empty error list, refuting the claim that every
candidate whose text is not a non-empty string receives a non-empty error
list. -/
theorem validate_component_data_accepts_empty_text :
    validate_component_data
      [("text", PyValue.str ""), ("type", PyValue.str "Claim")] = [] := by
  decide

/-- C6 (amended): `validate_component_data` returns a non-empty error list
for every candidate missing the `text` field (including an error naming
the missing field), for every candidate whose `text` is present but not a
string (emptiness is not checked by the source), and for every candidate
whose `type` string is not an exact case-sensitive match of one of the 8
allowed literals — in particular type `claim` yields a type-invalid error,
not silent acceptance; failing candidates are dropped individually without
aborting the batch (a candidate missing `text` is skipped while the next
candidate of the same batch is still accepted). -/
theorem validate_component_data_correct :
    (∀ d : PyDict, dictGet d "text" = none →
      "Missing required field: text" ∈ validate_component_data d ∧
      validate_component_data d ≠ []) ∧
    (∀ (d : PyDict) (v : PyValue), dictGet d "text" = some v →
      (∀ s, v ≠ PyValue.str s) → validate_component_data d ≠ []) ∧
    (∀ (d : PyDict) (s : String), dictGet d "type" = some (PyValue.str s) →
      s ∉ valid_types →
      ("Invalid type: " ++ s ++ ". Must be one of the valid types") ∈
        validate_component_data d ∧ validate_component_data d ≠ []) ∧
    (validate_component_data
      [("text", PyValue.str "wrong case type"), ("type", PyValue.str "claim")] ≠ []) ∧
    (extract_components_from_chunk
      [[("type", PyValue.str "Claim")],
       [("text", PyValue.str "a fine and long span"), ("type", PyValue.str "Claim"),
        ("page", PyValue.int 2)]]
      [PageData.mk 2 "a fine and long span here"] =
      [ArgumentComponent.mk "P2-C2" "Claim" "a fine and long span" 2]) := by
  refine ⟨?_, ?_, ?_, by decide, by decide⟩
  · intro d h
    have h1 : "text" ∈ ["text", "type"].filter (fun f => (dictGet d f).isNone) :=
      List.mem_filter.mpr ⟨by simp, by simp [h]⟩
    have h2 : "Missing required field: text" ∈
        (["text", "type"].filter (fun f => (dictGet d f).isNone)).map
          (fun f => "Missing required field: " ++ f) :=
      List.mem_map.mpr ⟨"text", h1, rfl⟩
    have h3 : "Missing required field: text" ∈ validate_component_data d := by
      unfold validate_component_data
      exact List.mem_append_left _ (List.mem_append_left _
        (List.mem_append_left _ h2))
    exact ⟨h3, List.ne_nil_of_mem h3⟩
  · intro d v hv hns
    cases v with
    | str s => exact absurd rfl (hns s)
    | int n =>
      have h3 : "\x27text\x27 must be a string" ∈ validate_component_data d := by
        unfold validate_component_data
        rw [hv]
        exact List.mem_append_left _ (List.mem_append_left _
          (List.mem_append_right _ (by simp)))
      exact List.ne_nil_of_mem h3
  · intro d s hty hmem
    have hco : valid_types.contains s = false := by
      simpa using hmem
    have h3 : ("Invalid type: " ++ s ++ ". Must be one of the valid types") ∈
        validate_component_data d := by
      simp [validate_component_data, hty, hco]
      exact Or.inr (Or.inr (Or.inl hmem))
    exact ⟨h3, List.ne_nil_of_mem h3⟩

/-- Witness for C6: the amended validation theorem applied to a candidate
missing `text`, a candidate with an integer `text`, and a candidate with
the wrong-case type `claim`. -/
theorem validate_component_data_correct_witness :
    ("Missing required field: text" ∈
        validate_component_data [("type", PyValue.str "Claim")] ∧
      validate_component_data [("type", PyValue.str "Claim")] ≠ []) ∧
    validate_component_data
      [("text", PyValue.int 7), ("type", PyValue.str "Claim")] ≠ [] ∧
    (("Invalid type: " ++ "claim" ++ ". Must be one of the valid types") ∈
        validate_component_data
          [("text", PyValue.str "x"), ("type", PyValue.str "claim")] ∧
      validate_component_data
        [("text", PyValue.str "x"), ("type", PyValue.str "claim")] ≠ []) :=
  ⟨validate_component_data_correct.1 _ (by decide),
   validate_component_data_correct.2.1 _ (PyValue.int 7) (by decide)
     (fun s h => PyValue.noConfusion h),
   validate_component_data_correct.2.2.1 _ "claim" (by decide) (by decide)⟩

/-- Modelled from the spec wording of claim C5, for comparison with the
source id scheme only (NOT translated from the source): assign
`P{page}-{TypeInitial}{n}` with `n` a 1-based counter unique per
(page, type-initial) pair within the extraction call.  Candidates are
given as (type, page) pairs. -/
def specClaimedIdsGo : List (String × Int) → List ((String × Int) × Nat) → List String
  | [], _ => []
  | (ty, pg) :: rest, seen =>
    let key := (String.mk [(ty.data.headD ' ').toUpper], pg)
    let n := (match seen.find? (fun kv => kv.fst == key) with
      | some kv => kv.snd
      | none => 0) + 1
    ("P" ++ toString pg ++ "-" ++ key.fst ++ toString n) ::
      specClaimedIdsGo rest ((key, n) :: seen.filter (fun kv => kv.fst != key))

/-- Entry point of the spec-worded id scheme of claim C5. -/
def spec_claimed_ids (candidates : List (String × Int)) : List String :=
  specClaimedIdsGo candidates []

theorem mem_of_mem_merge_overlapping
    {c : ArgumentComponent} {l : List ArgumentComponent}
    (h : c ∈ merge_overlapping_components l) : c ∈ l :=
  (List.perm_insertionSort byTextLengthDesc l).mem_iff.mp
    ((mergeOverlapGo_sublist (List.insertionSort byTextLengthDesc l) []).subset h)

theorem build_component_id :
    ∀ (comp_data : PyDict) (chunk_pages : List PageData) (i : Nat)
      (c : ArgumentComponent), build_component comp_data chunk_pages i = some c →
      c.id = generate_component_id c.type c.page i := by
  intro cd pages i c hb
  simp only [build_component] at hb
  split at hb
  · split at hb
    all_goals first
      | (injection hb with hb; subst hb; rfl)
      | exact Option.noConfusion hb
  · exact Option.noConfusion hb

theorem extractComponentsGo_mem :
    ∀ (data : List PyDict) (chunk_pages : List PageData) (start : Nat)
      (c : ArgumentComponent), c ∈ extractComponentsGo chunk_pages start data →
      ∃ i comp_data, data[i]? = some comp_data ∧
        build_component comp_data chunk_pages (start + i) = some c := by
  intro data
  induction data with
  | nil => intro _ _ _ hc; simp [extractComponentsGo] at hc
  | cons d rest ih =>
    intro pages start c hc
    simp only [extractComponentsGo] at hc
    rcases List.mem_append.mp hc with h1 | h2
    · refine ⟨0, d, by simp, ?_⟩
      cases hb : build_component d pages start with
      | none => rw [hb] at h1; simp at h1
      | some c2 =>
        rw [hb] at h1
        simp only [Option.toList_some, List.mem_singleton] at h1
        subst h1
        simpa using hb
    · rcases ih pages (start + 1) c h2 with ⟨i, cd, hget, hbuild⟩
      refine ⟨i + 1, cd, by simpa using hget, ?_⟩
      have harith : start + 1 + i = start + (i + 1) := by omega
      rw [← harith]
      exact hbuild

/-- C5-counterexample: two valid candidates of different types on the same
page.  Under the claimed per-(page, type-initial) counters the second
candidate (the first Claim of page 1) would be named `P1-C1`, but the
source feeds the global enumerate index into `generate_component_id` and
names it `P1-C2`. -/
theorem component_id_scheme_counterexample :
    spec_claimed_ids [("Evidence", 1), ("Claim", 1)] = ["P1-E1", "P1-C1"] ∧
    (extract_components_from_chunk
      [[("text", PyValue.str "alpha beta gamma delta"),
        ("type", PyValue.str "Evidence"), ("page", PyValue.int 1)],
       [("text", PyValue.str "epsilon zeta"),
        ("type", PyValue.str "Claim"), ("page", PyValue.int 1)]]
      [PageData.mk 1 "p"]).map (fun c => c.id) = ["P1-E1", "P1-C2"] ∧
    (["P1-E1", "P1-C1"] : List String) ≠ ["P1-E1", "P1-C2"] := by
  refine ⟨by decide, by decide, by decide⟩

/-- C5 (amended): each component accepted by one extraction call has id
`P{page}-{TypeInitial}{n}` where `TypeInitial` is the uppercased first
letter of its type and `n = i + 1` for `i` the candidate's 0-based
position in the call's full parsed candidate list — a single call-wide
enumerate counter shared by all (page, type-initial) pairs, advanced also
by invalid candidates, rather than a 1-based counter unique per
(page, type-initial) pair. -/
theorem component_id_from_enumerate_index :
    ∀ (componentsData : List PyDict) (chunk_pages : List PageData)
      (c : ArgumentComponent),
      c ∈ extract_components_from_chunk componentsData chunk_pages →
      ∃ i comp_data, componentsData[i]? = some comp_data ∧
        build_component comp_data chunk_pages i = some c ∧
        c.id = generate_component_id c.type c.page i := by
  intro data pages c hc
  have hmem : c ∈ extractComponentsGo pages 0 data :=
    mem_of_mem_merge_overlapping hc
  rcases extractComponentsGo_mem data pages 0 c hmem with ⟨i, cd, hget, hbuild⟩
  rw [Nat.zero_add] at hbuild
  exact ⟨i, cd, hget, hbuild, build_component_id cd pages i c hbuild⟩

/-- Witness for C5 (amended): a single valid candidate is accepted with id
`P1-C1`, produced from enumerate index 0. -/
theorem component_id_from_enumerate_index_witness :
    (ArgumentComponent.mk "P1-C1" "Claim" "some long claim text" 1 ∈
      extract_components_from_chunk
        [[("text", PyValue.str "some long claim text"),
          ("type", PyValue.str "Claim"), ("page", PyValue.int 1)]]
        [PageData.mk 1 "x"]) ∧
    ∃ i comp_data,
      ([[("text", PyValue.str "some long claim text"),
         ("type", PyValue.str "Claim"), ("page", PyValue.int 1)]] :
        List PyDict)[i]? = some comp_data ∧
      build_component comp_data [PageData.mk 1 "x"] i =
        some (ArgumentComponent.mk "P1-C1" "Claim" "some long claim text" 1) ∧
      (ArgumentComponent.mk "P1-C1" "Claim" "some long claim text" 1).id =
        generate_component_id "Claim" 1 i :=
  ⟨by decide, component_id_from_enumerate_index _ _ _ (by decide)⟩

/-- The 9 allowed relation literals of `validate_relation_data`
(`utils.py`). -/
def valid_relations : List String :=
  ["supported_by", "contradicted_by", "leads_to", "elaborates",
   "addresses", "compares_to", "builds_on", "motivates", "demonstrates"]

/-- Embeds `validate_relation_data` of `utils.py`: required fields
`source`, `target` and `relation`; the `relation` value must exactly match
one of the 9 literals (the Python message also interpolates the literal
list, abbreviated here to a fixed suffix). -/
def validate_relation_data (relation_data : PyDict) : List String :=
  ((["source", "target", "relation"].filter
    (fun f => (dictGet relation_data f).isNone)).map
    (fun f => "Missing required field: " ++ f)) ++
  (match dictGet relation_data "relation" with
   | some (PyValue.str s) =>
     if valid_relations.contains s then []
     else ["Invalid relation: " ++ s ++ ". Must be one of the valid relations"]
   | some v => ["Invalid relation: " ++ v.render ++ ". Must be one of the valid relations"]
   | none => [])

/-- Embeds `_find_component_page` of `argument_extractor.py`: the page of
the first component carrying the given id, and page 1 when no component
does. -/
def find_component_page (component_id : String)
    (all_components : List ArgumentComponent) : Int :=
  match all_components.find? (fun component => component.id == component_id) with
  | some component => component.page
  | none => 1

/-- One iteration of the relation candidate loop of
`_extract_relationships_from_chunk`: drop the candidate when validation
reports errors, otherwise resolve the page as the max of the endpoint
pages.  (Candidates whose `source`, `target` or `relation` values are not
strings fall outside the string-typed `ArgumentRelation` model; the claims
quantify over string ids only.) -/
def build_relation (rel_data : PyDict)
    (all_components : List ArgumentComponent) : Option ArgumentRelation :=
  if validate_relation_data rel_data = [] then
    match dictGet rel_data "source", dictGet rel_data "target",
        dictGet rel_data "relation" with
    | some (PyValue.str s), some (PyValue.str t), some (PyValue.str rel) =>
      some (ArgumentRelation.mk s t rel
        (max (find_component_page s all_components)
          (find_component_page t all_components)))
    | _, _, _ => none
  else none

/-- Embeds the response-processing part of
`_extract_relationships_from_chunk` (`argument_extractor.py`): return
nothing when the chunk yielded no components
(`if len(chunk_components) < 1`), otherwise look endpoints up in
`all_components = existing_nodes + chunk_components` and accept each
validated candidate with page `max(source_page, target_page)`. -/
def extract_relationships_from_chunk (relationsData : List PyDict)
    (chunk_components existing_nodes : List ArgumentComponent) :
    List ArgumentRelation :=
  if chunk_components.length < 1 then []
  else
    relationsData.filterMap
      (fun rel_data => build_relation rel_data (existing_nodes ++ chunk_components))

/-- C8: every relation accepted by the relation-extraction step carries
page `max(page(source), page(target))`, the endpoint pages being looked up
in the full candidate-endpoint set `existing_nodes ++ chunk_components`;
an endpoint id that resolves to no component contributes page 1; on the
spec's two-component example the accepted edge carries page 2 = max(1,2). -/
theorem relation_page_is_max_of_endpoints :
    (∀ (relationsData : List PyDict)
      (chunk_components existing_nodes : List ArgumentComponent)
      (r : ArgumentRelation),
      r ∈ extract_relationships_from_chunk relationsData
        chunk_components existing_nodes →
      r.page = max
        (find_component_page r.source (existing_nodes ++ chunk_components))
        (find_component_page r.target (existing_nodes ++ chunk_components))) ∧
    (∀ (cid : String) (comps : List ArgumentComponent),
      (∀ comp ∈ comps, comp.id ≠ cid) → find_component_page cid comps = 1) ∧
    (extract_relationships_from_chunk
      [[("source", PyValue.str "P1-C1"), ("target", PyValue.str "P2-E1"),
        ("relation", PyValue.str "supported_by")]]
      [ArgumentComponent.mk "P2-E1" "Evidence" "e" 2]
      [ArgumentComponent.mk "P1-C1" "Claim" "c" 1] =
      [ArgumentRelation.mk "P1-C1" "P2-E1" "supported_by" 2]) := by
  refine ⟨?_, ?_, by decide⟩
  · intro rd cc en r hr
    simp only [extract_relationships_from_chunk] at hr
    split at hr
    · simp at hr
    · rcases List.mem_filterMap.mp hr with ⟨cd, _, hb⟩
      simp only [build_relation] at hb
      split at hb
      · split at hb
        all_goals first
          | (injection hb with hb; subst hb; rfl)
          | exact Option.noConfusion hb
      · exact Option.noConfusion hb
  · intro cid comps h
    simp only [find_component_page]
    have hnone : comps.find? (fun component => component.id == cid) = none := by
      apply List.find?_eq_none.mpr
      intro x hx
      simpa using h x hx
    rw [hnone]

/-- Witness for C8: the page-resolution theorem applied to the spec's
two-component example and the default-page theorem applied to an
unresolvable id. -/
theorem relation_page_is_max_of_endpoints_witness :
    ((ArgumentRelation.mk "P1-C1" "P2-E1" "supported_by" 2).page = max
      (find_component_page "P1-C1"
        ([ArgumentComponent.mk "P1-C1" "Claim" "c" 1] ++
         [ArgumentComponent.mk "P2-E1" "Evidence" "e" 2]))
      (find_component_page "P2-E1"
        ([ArgumentComponent.mk "P1-C1" "Claim" "c" 1] ++
         [ArgumentComponent.mk "P2-E1" "Evidence" "e" 2]))) ∧
    find_component_page "P9-Z9"
      [ArgumentComponent.mk "P1-C1" "Claim" "c" 1] = 1 :=
  ⟨relation_page_is_max_of_endpoints.1
      [[("source", PyValue.str "P1-C1"), ("target", PyValue.str "P2-E1"),
        ("relation", PyValue.str "supported_by")]]
      [ArgumentComponent.mk "P2-E1" "Evidence" "e" 2]
      [ArgumentComponent.mk "P1-C1" "Claim" "c" 1]
      (ArgumentRelation.mk "P1-C1" "P2-E1" "supported_by" 2) (by decide),
   relation_page_is_max_of_endpoints.2.1 "P9-Z9"
      [ArgumentComponent.mk "P1-C1" "Claim" "c" 1] (by decide)⟩

/-- The configuration fields inspected by `Config.validate` of `config.py`;
the float temperature is modelled as a rational number. -/
structure Config where
  OPENAI_API_KEY : Option String
  OPENAI_TEMPERATURE : Rat
  OPENAI_MAX_TOKENS : Int
  PAGES_PER_CHUNK : Int
  MAX_CHUNK_TEXT_LENGTH : Int
  MAX_TEXT_LENGTH : Int
  MIN_COMPONENT_LENGTH : Int

/-- Embeds `Config.validate` of `config.py`; Python's
`if not cls.OPENAI_API_KEY` treats a missing and an empty key alike. -/
def Config.validate (c : Config) : List String :=
  (if c.OPENAI_API_KEY.getD "" = "" then
    ["OPENAI_API_KEY environment variable is not set"] else []) ++
  (if c.OPENAI_TEMPERATURE < 0 ∨ c.OPENAI_TEMPERATURE > 2 then
    ["OPENAI_TEMPERATURE must be between 0 and 2"] else []) ++
  (if c.OPENAI_MAX_TOKENS ≤ 0 then
    ["OPENAI_MAX_TOKENS must be positive"] else []) ++
  (if c.PAGES_PER_CHUNK ≤ 0 then
    ["PAGES_PER_CHUNK must be positive"] else []) ++
  (if c.PAGES_PER_CHUNK > 30 then
    ["PAGES_PER_CHUNK should not exceed 30 for optimal performance"] else []) ++
  (if c.MAX_CHUNK_TEXT_LENGTH ≤ 0 then
    ["MAX_CHUNK_TEXT_LENGTH must be positive"] else []) ++
  (if c.MAX_TEXT_LENGTH ≤ 0 then
    ["MAX_TEXT_LENGTH must be positive"] else []) ++
  (if c.MIN_COMPONENT_LENGTH ≤ 0 then
    ["MIN_COMPONENT_LENGTH must be positive"] else [])

/-- Embeds the configuration gate and chunk planning of
`extract_argument_graph` (`argument_extractor.py`): raise
`ValueError(f"Configuration errors: ...")` when `Config.validate` reports
anything, before any chunk is processed; otherwise plan the page chunks.
(The per-chunk reasoning-service calls lie outside the embedded
fragment.) -/
def extract_argument_graph_plan (c : Config) (pages : List PageData) :
    Except String (List (List PageData)) :=
  let config_errors := c.validate
  if config_errors ≠ [] then
    Except.error ("Configuration errors: " ++
      String.intercalate ", " config_errors)
  else
    Except.ok (chunkPlan c.PAGES_PER_CHUNK.toNat pages)

/-- C10: `Config.validate` reports an error whenever `PAGES_PER_CHUNK`
exceeds 30, and the extraction driver then fails with a configuration
error before any chunk is processed — in addition to the non-positive
chunk-size case. -/
theorem config_rejects_oversized_chunk :
    (∀ (c : Config) (pages : List PageData), 30 < c.PAGES_PER_CHUNK →
      "PAGES_PER_CHUNK should not exceed 30 for optimal performance" ∈
        c.validate ∧
      ∃ msg, extract_argument_graph_plan c pages = Except.error msg) ∧
    (∀ (c : Config) (pages : List PageData), c.PAGES_PER_CHUNK ≤ 0 →
      "PAGES_PER_CHUNK must be positive" ∈ c.validate ∧
      ∃ msg, extract_argument_graph_plan c pages = Except.error msg) := by
  constructor
  · intro c pages h
    have hmem : "PAGES_PER_CHUNK should not exceed 30 for optimal performance" ∈
        c.validate := by
      simp [Config.validate, h]
    refine ⟨hmem, ?_⟩
    have hne : c.validate ≠ [] := List.ne_nil_of_mem hmem
    refine ⟨"Configuration errors: " ++
      String.intercalate ", " c.validate, ?_⟩
    simp [extract_argument_graph_plan, hne]
  · intro c pages h
    have hmem : "PAGES_PER_CHUNK must be positive" ∈ c.validate := by
      simp [Config.validate, h]
    refine ⟨hmem, ?_⟩
    have hne : c.validate ≠ [] := List.ne_nil_of_mem hmem
    refine ⟨"Configuration errors: " ++
      String.intercalate ", " c.validate, ?_⟩
    simp [extract_argument_graph_plan, hne]

/-- Witness for C10: a chunk size of 31 triggers the over-30 error and a
configuration failure; a chunk size of 0 triggers the positivity error. -/
theorem config_rejects_oversized_chunk_witness :
    ("PAGES_PER_CHUNK should not exceed 30 for optimal performance" ∈
        (Config.mk (some "key") (1 / 10) 2000 31 12000 8000 10).validate ∧
      ∃ msg, extract_argument_graph_plan
        (Config.mk (some "key") (1 / 10) 2000 31 12000 8000 10) [] =
        Except.error msg) ∧
    ("PAGES_PER_CHUNK must be positive" ∈
        (Config.mk (some "key") (1 / 10) 2000 0 12000 8000 10).validate ∧
      ∃ msg, extract_argument_graph_plan
        (Config.mk (some "key") (1 / 10) 2000 0 12000 8000 10) [] =
        Except.error msg) :=
  ⟨config_rejects_oversized_chunk.1 _ [] (by decide),
   config_rejects_oversized_chunk.2 _ [] (by decide)⟩
